import Mathlib

/-!
Verification of the tool-augmented LLM orchestrator in `myagent`
(`agent.py`, `client.py`, `basetypes.py`).

The development shallowly embeds:

* the two regular expressions compiled in `Agent.__init__`
  (`tool_pattern`, `func_pattern`) as regular expressions over a small
  token alphabet `Tok` (every character class appearing in the patterns
  is a union of these tokens, so matching a string against the Python
  pattern is equivalent to matching its tokenization against the
  embedded pattern);
* the string normalization done by `Agent.chat`
  (Python `str.strip` / `str.lstrip` / `str.split`);
* the parsing pipeline `Agent._is_tool_required` / `Agent.get_func_props`
  (Python `re.match` is prefix matching, `re.findall` non-emptiness is
  substring matching);
* the MCP client manager (`MCPClientManager`) with its
  `tool_map` dictionary, `call_tool` routing, `init_mcp_client`
  connection loop and `clean_mcp_client` teardown loop, where the
  behaviour of the external server processes is an oracle supplied as
  data on each client;
* the orchestration flow `Agent.chat`, with the LLM backend
  (`BaseModel.generate`) and the prompt/history renderer as oracles.

External effects (subprocesses, the model) are modelled as explicit
function parameters; fallible code returns `Except`.
-/

open RegularExpression List

-- =========================================================================
-- Token alphabet for the two source regexes
-- =========================================================================

/-- Token alphabet: the character classes occurring in `tool_pattern` and
`func_pattern` (agent.py lines 122-132) distinguish characters only up to
these eleven classes, so matching is performed on tokenized strings. -/
inductive Tok : Type
  | lbrack | rbrack | lpar | rpar | eqs | quot | comma | ident | nl | ws | other
  deriving DecidableEq, Repr

/-- The character class `[A-Za-z0-9_]` of the source regexes. -/
def isIdentChar (c : Char) : Bool :=
  ('A' ≤ c && c ≤ 'Z') || ('a' ≤ c && c ≤ 'z') || ('0' ≤ c && c ≤ '9') || c = '_'

/-- Python's `\s` class and `str.strip()` whitespace, restricted to the
ASCII whitespace characters (the non-ASCII Unicode whitespace code points
also stripped by Python never occur in any string considered below). -/
def pyIsSpace (c : Char) : Bool :=
  c = ' ' || c = '\t' || c = '\n' || c = '\x0d' || c = '\x0b' || c = '\x0c'

/-- Tokenization of one character. The special characters of the patterns
get their own token; remaining characters collapse to `ident`
(the `[A-Za-z0-9_]` class), `nl` (newline, excluded by `.`), `ws`
(other whitespace) and `other`. -/
def encode (c : Char) : Tok :=
  if c = '[' then .lbrack
  else if c = ']' then .rbrack
  else if c = '(' then .lpar
  else if c = ')' then .rpar
  else if c = '=' then .eqs
  else if c = '"' then .quot
  else if c = ',' then .comma
  else if isIdentChar c then .ident
  else if c = '\n' then .nl
  else if pyIsSpace c then .ws
  else .other

/-- Regular expressions over the token alphabet. -/
abbrev RE := RegularExpression Tok

def chr (t : Tok) : RE := RegularExpression.char t

/-- The regex `r+` (one or more repetitions). -/
def rplus (r : RE) : RE := r * r.star

/-- The regex `r?` (zero or one occurrence). -/
def ropt (r : RE) : RE := r + 1

/-- The regex `.` : any character except a newline. -/
def dotRE : RE :=
  chr .lbrack + chr .rbrack + chr .lpar + chr .rpar + chr .eqs + chr .quot +
    chr .comma + chr .ident + chr .ws + chr .other

/-- The regex `[A-Za-z0-9_]+`. -/
def identPlus : RE := rplus (chr .ident)

/-- The regex `\s`. -/
def wsRE : RE := chr .nl + chr .ws

/-- The parameter sub-pattern `[A-Za-z0-9\_]+=\"?.+\"?,?\s?` shared verbatim
by `tool_pattern` and `func_pattern` (agent.py lines 122-132). -/
def paramRE : RE :=
  identPlus * (chr .eqs * (ropt (chr .quot) * (rplus dotRE * (ropt (chr .quot) *
    (ropt (chr .comma) * ropt wsRE)))))

/-- One call of `tool_pattern`: `[A-Za-z0-9\_]+\((param)*\),?\s?`. -/
def callRE : RE :=
  identPlus * (chr .lpar * (paramRE.star * (chr .rpar * (ropt (chr .comma) * ropt wsRE))))

/-- `self.tool_pattern` from `Agent.__init__` (agent.py lines 122-124):
`\[([A-Za-z0-9\_]+\(([A-Za-z0-9\_]+=\"?.+\"?,?\s?)*\),?\s?)+\]`. -/
def toolPatternRE : RE := chr .lbrack * (rplus callRE * chr .rbrack)

/-- `self.func_pattern` from `Agent.__init__` (agent.py lines 130-132):
`([A-Za-z0-9\_]+)\(([A-Za-z0-9\_]+=\"?.+\"?,?\s?)*\)` (named groups dropped;
they do not affect which strings match). -/
def funcPatternRE : RE := identPlus * (chr .lpar * (paramRE.star * chr .rpar))

-- =========================================================================
-- Matchers: whole-string, anchored-prefix (Python `re.match`),
-- substring (Python `re.search` / non-emptiness of `re.findall`)
-- =========================================================================

/-- Anchored matcher: `true` iff some prefix of `l` is in the language of
`r`. This is the semantics of Python's `re.Pattern.match`. -/
def mPre (r : RE) : List Tok → Bool
  | [] => r.rmatch []
  | c :: cs => r.rmatch [] || mPre (r.deriv c) cs

/-- Tokenization of a string. -/
def encodeStr (s : String) : List Tok := s.toList.map encode

/-- Leftmost suffix of `l` whose tokenization has a prefix in the language
of `r`; `re.findall` is non-empty exactly when this is `some`. -/
def searchSuffix (r : RE) : List Char → Option (List Char)
  | [] => if r.rmatch [] then some [] else none
  | s@(_ :: cs) => if mPre r (s.map encode) then some s else searchSuffix r cs

/-- Substring matcher: the semantics of non-emptiness of `re.findall`. -/
def mSearch (r : RE) (l : List Char) : Bool := (searchSuffix r l).isSome

/-- Length of the longest prefix of `l` in the language of `r`. -/
def longestMatchLen (r : RE) : List Tok → Option Nat
  | [] => if r.matchEpsilon then some 0 else none
  | c :: cs =>
    match longestMatchLen (r.deriv c) cs with
    | some n => some (n + 1)
    | none => if r.matchEpsilon then some 0 else none

-- =========================================================================
-- Matcher correctness
-- =========================================================================

theorem rmatch_deriv_cons (r : RE) (c : Tok) (l : List Tok) :
    (r.deriv c).rmatch l = r.rmatch (c :: l) := rfl

theorem mem_matches'_deriv_iff (r : RE) (c : Tok) (l : List Tok) :
    l ∈ (r.deriv c).matches' ↔ (c :: l) ∈ r.matches' := by
  rw [← rmatch_iff_matches', ← rmatch_iff_matches', rmatch_deriv_cons]

/-- Correctness of the anchored matcher: `mPre r l` holds iff some prefix
of `l` is in the language of `r`. -/
theorem mPre_iff (r : RE) (l : List Tok) :
    mPre r l = true ↔ ∃ p q, l = p ++ q ∧ p ∈ r.matches' := by
  induction l generalizing r with
  | nil =>
    simp only [mPre]
    rw [show (r.rmatch [] = true) ↔ [] ∈ r.matches' from rmatch_iff_matches' r []]
    constructor
    · exact fun h => ⟨[], [], rfl, h⟩
    · rintro ⟨p, q, hpq, hp⟩
      obtain ⟨rfl, rfl⟩ := append_eq_nil.mp hpq.symm
      exact hp
  | cons c cs ih =>
    simp only [mPre, Bool.or_eq_true]
    rw [show (r.rmatch [] = true) ↔ [] ∈ r.matches' from rmatch_iff_matches' r [], ih]
    constructor
    · rintro (h | ⟨p, q, rfl, hp⟩)
      · exact ⟨[], c :: cs, rfl, h⟩
      · exact ⟨c :: p, q, rfl, (mem_matches'_deriv_iff r c p).mp hp⟩
    · rintro ⟨p, q, hpq, hp⟩
      cases p with
      | nil => left; cases hpq; exact hp
      | cons p0 ps =>
        right
        cases hpq
        exact ⟨ps, q, rfl, (mem_matches'_deriv_iff r c ps).mpr hp⟩

/-- Correctness of the substring matcher: `mSearch r l` holds iff some
factor (contiguous sublist) of `l` tokenizes into the language of `r`. -/
theorem mSearch_iff (r : RE) (l : List Char) :
    mSearch r l = true ↔
      ∃ pre mid post, l = pre ++ mid ++ post ∧ (mid.map encode) ∈ r.matches' := by
  induction l with
  | nil =>
    simp only [mSearch, searchSuffix]
    constructor
    · intro h
      split at h
      · refine ⟨[], [], [], rfl, ?_⟩
        rw [← rmatch_iff_matches']
        assumption
      · simp at h
    · rintro ⟨pre, mid, post, hl, hm⟩
      obtain ⟨h1, rfl⟩ := append_eq_nil.mp hl.symm
      obtain ⟨rfl, rfl⟩ := append_eq_nil.mp h1
      rw [← rmatch_iff_matches'] at hm
      simp only [map_nil] at hm
      simp [hm]
  | cons c cs ih =>
    simp only [mSearch, searchSuffix]
    split
    · rename_i hpre
      simp only [Option.isSome_some, true_iff]
      rw [mPre_iff] at hpre
      obtain ⟨p, q, hpq, hp⟩ := hpre
      obtain ⟨p', q', hsplit, hp', hq'⟩ := map_eq_append_iff.mp hpq
      exact ⟨[], p', q', by simp [hsplit], hp' ▸ hp⟩
    · rename_i hpre
      rw [← mSearch, ih]
      constructor
      · rintro ⟨pre, mid, post, rfl, hm⟩
        exact ⟨c :: pre, mid, post, rfl, hm⟩
      · rintro ⟨pre, mid, post, hl, hm⟩
        cases pre with
        | nil =>
          exfalso
          apply hpre
          rw [mPre_iff]
          simp only [nil_append] at hl
          exact ⟨mid.map encode, post.map encode, by rw [hl]; simp, hm⟩
        | cons p0 ps =>
          cases hl
          exact ⟨ps, mid, post, by simp, hm⟩

-- =========================================================================
-- Python string primitives used by agent.py
-- =========================================================================

/-- Python `str.rstrip`-style removal of the longest suffix of characters
satisfying `p`. -/
def dropRightWhile (p : Char → Bool) (l : List Char) : List Char :=
  (l.reverse.dropWhile p).reverse

/-- Python `str.strip(chars)`: remove the characters satisfying `p` from
both ends. -/
def stripBoth (p : Char → Bool) (l : List Char) : List Char :=
  dropRightWhile p (l.dropWhile p)

/-- The character set of `str.strip("[]")` in `Agent.get_func_props`. -/
def isBracketChar (c : Char) : Bool := c = '[' || c = ']'

/-- The character set of `.lstrip("()<>{}`")` in `Agent.chat` (agent.py
line 311); the braces and the backtick are written as escapes. -/
def chatLstripChars : List Char := "()<>\x7b\x7d`".toList

/-- The normalization `response.strip().lstrip("()<>{}`")` applied to the
first-phase generation in `Agent.chat` (agent.py line 311). -/
def pyNormalize (s : String) : String :=
  ((stripBoth pyIsSpace s.toList).dropWhile (fun c => chatLstripChars.contains c)).asString

-- =========================================================================
-- Data model
-- =========================================================================

/-- Response kinds of `AgentResponse` (basetypes.py line 65: the `Literal`
tag `type`). -/
inductive RKind : Type
  | text | toolCalling | toolResult
  deriving DecidableEq, Repr

/-- `AgentResponse` (basetypes.py lines 64-66). -/
structure AgentResponse where
  type : RKind
  data : String
  deriving DecidableEq, Repr

/-- Modelled from the spec: one `ConversationTurn` of the History
capability (§3, §4.5). The concrete prompt/message classes
(`myagent/prompt.py`, imported by agent.py) are not among the sources;
per §4.5 the orchestrator only appends role-tagged turns built by
`get_user_prompt` / `get_assistant_prompt` / `get_tool_result_prompt`
and never inspects their internals. -/
inductive Turn : Type
  | user (question toolScheme : String)
  | assistant (answer : String)
  | toolResult (result : String)
  deriving DecidableEq, Repr

/-- Errors propagating out of the embedded operations.
`mcpException` is `errors.MCPException` raised at client.py line 267
(module `myagent/errors.py` is not among the sources; the spec names this
error UnknownToolError, §7). `indexError` models the Python `IndexError`
that `self.clients[idx]` would raise on an out-of-range routing index. -/
inductive AgentError : Type
  | mcpException (msg : String)
  | indexError
  deriving DecidableEq, Repr

/-- A tool as reported by a server's `list_tools()` (spec §3,
ToolDescriptor). -/
structure MCPTool where
  name : String
  description : String
  inputSchema : String
  deriving DecidableEq, Repr

/-- One connected `MCPClient` (client.py lines 22-133). The external
server process is an oracle: `callBehavior` gives, per tool name and
arguments, the `(isError, [content.text])` pair that
`MCPClient.call_tool` returns (client.py lines 109-129); `tools` is what
`list_tools()` reports; `cleanupFails` tells whether
`cleanup()`/`exit_stack.aclose()` raises for this client. -/
structure MCPClient where
  name : String
  tools : List MCPTool
  callBehavior : String → List (String × String) → Bool × List String
  cleanupFails : Bool

/-- `MCPClientManager` state (client.py lines 151-167): registered paths,
connected clients and the `tool_map` routing dictionary
(tool name → index into `clients`). The `tool_info` / `resource_map`
display metadata also populated there is read by no operation modelled
here and is omitted. -/
structure MCPClientManager where
  server_path : List String
  clients : List MCPClient
  tool_map : String → Option Nat

-- =========================================================================
-- MCPClientManager operations
-- =========================================================================

/-- `MCPClientManager.call_tool` (client.py lines 249-270):
`idx = self.tool_map.get(name, -1); if idx < 0: raise
errors.MCPException(f"Unknown tool name {name!r}")`, then routes to
`self.clients[idx].call_tool(name, param)`. -/
def MCPClientManager.call_tool (m : MCPClientManager) (name : String)
    (param : List (String × String)) : Except AgentError (Bool × List String) :=
  let idx : Int := match m.tool_map name with | some n => (n : Int) | none => -1
  if idx < 0 then
    .error (.mcpException ("Unknown tool name \x27" ++ name ++ "\x27"))
  else
    match m.clients[idx.toNat]? with
    | some c => .ok (c.callBehavior name param)
    | none => .error .indexError

/-- `MCPClientManager.init_mcp_client` (client.py lines 180-185): for each
registered path create a client, connect it, and append it to
`self.clients`; an exception from `connect_to_server` (the oracle
`connect`; it raises e.g. `FileNotFoundError` for a missing path,
client.py lines 71-72) aborts the loop. Returns the clients the loop
appended and the propagated exception, if any. -/
def init_mcp_client (connect : String → Except AgentError MCPClient) :
    List String → List MCPClient × Option AgentError
  | [] => ([], none)
  | p :: ps =>
    match connect p with
    | .error e => ([], some e)
    | .ok c =>
      let r := init_mcp_client connect ps
      (c :: r.1, r.2)

/-- `MCPClientManager.clean_mcp_client` (client.py lines 187-190):
`for client in self.clients: await client.cleanup()`. Returns how many
cleanups were attempted and whether an exception propagated. -/
def clean_mcp_client : List MCPClient → Nat × Bool
  | [] => (0, false)
  | c :: cs =>
    if c.cleanupFails then (1, true)
    else
      let r := clean_mcp_client cs
      (r.1 + 1, r.2)

/-- Dictionary assignment `m[k] = v` for the `tool_map` dictionary. -/
def updateMap (m : String → Option Nat) (k : String) (v : Nat) :
    String → Option Nat :=
  fun x => if x = k then some v else m x

/-- Inner loop of `MCPClientManager.get_func_scheme` (client.py lines
211-222): `for tool in tools: self.tool_map[tool.name] = idx`. -/
def registerTools (idx : Nat) : List MCPTool → (String → Option Nat) →
    String → Option Nat
  | [], m => m
  | t :: ts, m => registerTools idx ts (updateMap m t.name idx)

/-- Outer loop of `MCPClientManager.get_func_scheme` (client.py lines
208-222): `for idx, client in enumerate(self.clients)`, registering every
tool of client `idx` under index `idx`. -/
def get_func_scheme_map (idx : Nat) : List MCPClient → (String → Option Nat) →
    String → Option Nat
  | [], m => m
  | c :: cs, m => get_func_scheme_map (idx + 1) cs (registerTools idx c.tools m)

/-- The returned `func_scheme_list` of `get_func_scheme`: one entry per
tool across all clients, in client order (`utils.tool2dict` only reshapes
a tool, so the list is modelled by the tools themselves). -/
def get_func_scheme_list (clients : List MCPClient) : List MCPTool :=
  (clients.map (·.tools)).flatten

-- =========================================================================
-- Agent: tool parsing and execution
-- =========================================================================

/-- `Agent._is_tool_required` (agent.py lines 197-207):
`self.tool_pattern.match(response)`, truthy iff the pattern matches at the
start of the string (Python `re.match` anchors only at the start, not at
the end). -/
def is_tool_required (response : String) : Bool :=
  mPre toolPatternRE (encodeStr response)

/-- The `function` group captured by `func_pattern.findall` at the leftmost
match: Python's leftmost match starts at `suf`, where the greedy
`[A-Za-z0-9_]+` group captures the maximal identifier run. -/
def extractName (suf : List Char) : String :=
  (suf.takeWhile isIdentChar).asString

/-- The `params` group captured by `func_pattern.findall` at the leftmost
match: the text strictly between the `(` following the name and the `)`
closing the (greedy, hence longest) match. For parameter text containing a
newline the Python engine may need several iterations of the starred
group, in which case it reports only the last iteration; no theorem below
inspects this value. -/
def extractParams (suf : List Char) : List Char :=
  let len := (longestMatchLen funcPatternRE (suf.map encode)).getD 0
  let matched := suf.take len
  (matched.drop ((matched.takeWhile isIdentChar).length + 1)).dropLast

/-- Modelled from the spec: `utils.param2dict` (module `myagent/utils.py`
is not among the sources). §4.4: decomposition "converts the parameter
string into a key→value mapping (string values)"; §7 (ParsingAmbiguity): a
parameter substring that fails to decompose yields an empty mapping rather
than an error. Modelled as splitting on commas, then on the first `=`,
unquoting the value; no theorem below inspects the produced mapping. -/
def param2dict (s : String) : List (String × String) :=
  (s.toList.splitOnP (fun c => c = ',')).filterMap fun kv =>
    match (stripBoth pyIsSpace kv).splitOnP (fun c => c = '=') with
    | k :: v :: _ => some (k.asString, (stripBoth (fun c => c = '"') v).asString)
    | _ => none

/-- `Agent.get_func_props` (agent.py lines 209-229): strip the outer
brackets (`response.strip("[]")`), split on every comma, strip each piece,
and yield a `(name, params)` pair for each piece on which
`func_pattern.findall` is non-empty. -/
def get_func_props (response : String) : List (String × List (String × String)) :=
  ((stripBoth isBracketChar response.toList).splitOnP (fun c => c = ',')).filterMap
    fun seg =>
      let sg := stripBoth pyIsSpace seg
      match searchSuffix funcPatternRE sg with
      | some suf => some (extractName suf, param2dict (extractParams suf).asString)
      | none => none

/-- One collected result of `Agent.get_result_tool` (agent.py line 255):
`{"name": name, "output": results}`. -/
structure ToolResult where
  name : String
  output : List String
  deriving DecidableEq, Repr

/-- Loop body of `Agent.get_result_tool` (agent.py lines 243-257): for
each parsed `(name, param)` pair call
`self.mcp_manager.call_tool(name, param)`; an exception aborts the whole
loop; the `is_err` component of a successful call is bound and then
ignored, only the content texts are collected. -/
def get_result_tool_go (m : MCPClientManager) :
    List (String × List (String × String)) → Except AgentError (List ToolResult)
  | [] => .ok []
  | (name, param) :: rest =>
    match m.call_tool name param with
    | .error e => .error e
    | .ok res =>
      let contents := res.2
      match get_result_tool_go m rest with
      | .error e => .error e
      | .ok rs => .ok ({ name := name, output := contents } :: rs)

/-- `Agent.get_result_tool` (agent.py lines 231-257). -/
def get_result_tool (m : MCPClientManager) (response : String) :
    Except AgentError (List ToolResult) :=
  get_result_tool_go m (get_func_props response)

-- =========================================================================
-- JSON serialization of the tool results (json.dumps in agent.py line 328)
-- =========================================================================

def hexDigit (n : Nat) : String :=
  String.singleton (if n < 10 then Char.ofNat (48 + n) else Char.ofNat (87 + n))

/-- Escaping of one character as in `json.dumps(..., ensure_ascii=False)`. -/
def jsonEscapeChar (c : Char) : String :=
  if c = '"' then "\\\""
  else if c = '\\' then "\\\\"
  else if c = '\n' then "\\n"
  else if c = '\t' then "\\t"
  else if c = '\x0d' then "\\r"
  else if c = '\x08' then "\\b"
  else if c = '\x0c' then "\\f"
  else if c.toNat < 32 then "\\u00" ++ hexDigit (c.toNat / 16) ++ hexDigit (c.toNat % 16)
  else String.singleton c

def jsonStr (s : String) : String :=
  "\"" ++ String.join (s.toList.map jsonEscapeChar) ++ "\""

/-- `json.dumps(result_list, ensure_ascii=False)` for the list of
`{"name": ..., "output": [...]}` dicts built by `get_result_tool`
(agent.py line 328), with CPython's default separators. -/
def jsonDumpResults (rs : List ToolResult) : String :=
  "[" ++ String.intercalate ", " (rs.map fun r =>
    "\x7b\"name\": " ++ jsonStr r.name ++ ", \"output\": [" ++
      String.intercalate ", " (r.output.map jsonStr) ++ "]\x7d") ++ "]"

-- =========================================================================
-- Agent: chat
-- =========================================================================

/-- `SYSTEM_PROMPT` (agent.py line 33). -/
def SYSTEM_PROMPT : String := "You are a helpful assistant"

/-- `TOOL_CALL_PROMPT.format(function_scheme=...)` (agent.py lines 39-50,
293-295): the tool-calling instruction template with the function scheme
JSON substituted for the placeholder. -/
def TOOL_CALL_PROMPT (function_scheme : String) : String :=
  "You are an expert in composing functions. You are given a question and a set of possible functions. \nBased on the question, you will need to make one or more function/tool calls to achieve the purpose. \nIf none of the function can be used, point it out. If the given question lacks the parameters required by the function,\nalso point it out. You should only return the function call in tools call sections.\n\nIf you decide to invoke any of the function(s), you MUST put it in the format of [func_name1(), func_name2(params_name1=params_value1, params_name2=params_value2...), func_name3(params)]\nYou SHOULD NOT include any other text in the response.\n\nHere is a list of functions in JSON format that you can invoke.\n\n"
    ++ function_scheme ++ "\n"

/-- The agent state threaded through `chat`: the cached
`func_scheme_prompt` / `resource_prompt` strings (agent.py lines 116-117,
172-173), the MCP manager, and the conversation history held by the
prompt object. -/
structure AgentState where
  func_scheme_prompt : String
  resource_prompt : String
  mcp_manager : MCPClientManager
  history : List Turn

/-- `Agent.chat` (agent.py lines 263-359), parametrized by the two
external capabilities: `llm` is `BaseModel.generate` (basetypes.py) and
`render` is `BasePrompt.get_generation_prompt(tool_enabled, last)`
rendering the given history (defaults: `last=50` for the first phase,
`last=3` for the second, basetypes.py line 55 and agent.py line 344).
Returns the response list (or the propagated exception) together with the
state as mutated up to that point. -/
def chat (llm : String → String) (render : List Turn → Bool → Nat → String)
    (st : AgentState) (question : String) :
    Except AgentError (List AgentResponse) × AgentState :=
  let tool_scheme := TOOL_CALL_PROMPT st.func_scheme_prompt
  let h1 := st.history ++ [Turn.user question tool_scheme]
  let response := pyNormalize (llm (render h1 true 50))
  if is_tool_required response then
    let h2 := h1 ++ [Turn.assistant response]
    match get_result_tool st.mcp_manager response with
    | .error e => (.error e, { st with history := h2 })
    | .ok results =>
      let result := jsonDumpResults results
      let h3 := h2 ++ [Turn.toolResult result]
      let final := llm (render h3 false 3)
      (.ok [⟨.toolCalling, response⟩, ⟨.toolResult, result⟩, ⟨.text, final⟩],
        { st with history := h3 ++ [Turn.assistant final] })
  else
    (.ok [⟨.text, response⟩], { st with history := h1 ++ [Turn.assistant response] })

-- =========================================================================
-- Helper definitions for the theorems
-- =========================================================================

/-- The normalized first-phase generation inside `Agent.chat` (agent.py
lines 293-311): the text whose classification by `_is_tool_required`
selects the branch. -/
def phase1Response (llm : String → String) (render : List Turn → Bool → Nat → String)
    (st : AgentState) (question : String) : String :=
  pyNormalize (llm (render
    (st.history ++ [Turn.user question (TOOL_CALL_PROMPT st.func_scheme_prompt)]) true 50))

/-- An empty agent state (no history, no connected servers). -/
def stEmpty : AgentState :=
  { func_scheme_prompt := "[]", resource_prompt := "[]",
    mcp_manager := { server_path := [], clients := [], tool_map := fun _ => none },
    history := [] }

/-- A client whose cleanup succeeds and whose tools all echo nothing. -/
def okClient : MCPClient :=
  { name := "ok", tools := [], callBehavior := fun _ _ => (false, []), cleanupFails := false }

/-- A client whose `cleanup()` raises. -/
def badCleanupClient : MCPClient :=
  { name := "bad", tools := [], callBehavior := fun _ _ => (false, []), cleanupFails := true }

-- =========================================================================
-- C3 : unknown tool names
-- =========================================================================

/-- C3: for every tool name absent from the aggregated namespace and every
arguments mapping, `MCPClientManager.call_tool` fails with the
unknown-tool `MCPException`; the result is one fixed error value, so it
neither depends on the arguments nor involves any client. -/
theorem call_tool_unknown_name (m : MCPClientManager) (name : String)
    (param : List (String × String)) (h : m.tool_map name = none) :
    m.call_tool name param =
      .error (.mcpException ("Unknown tool name \x27" ++ name ++ "\x27")) := by
  unfold MCPClientManager.call_tool
  rw [h]
  rfl

/-- C3 witness: `call("nonexistent-tool", {})` on an empty registry. -/
theorem call_tool_unknown_name_witness :
    MCPClientManager.call_tool
        { server_path := [], clients := [], tool_map := fun _ => none }
        "nonexistent-tool" [] =
      .error (.mcpException ("Unknown tool name \x27" ++ "nonexistent-tool" ++ "\x27")) :=
  call_tool_unknown_name _ "nonexistent-tool" [] rfl

-- =========================================================================
-- C4 : teardown behaviour of clean_mcp_client
-- =========================================================================

/-- C4 counterexample: with two connected clients whose first cleanup
raises, `clean_mcp_client` attempts only the first cleanup — the second
client's cleanup is never attempted and the exception propagates, so the
loop is not best-effort. -/
theorem clean_mcp_client_not_best_effort :
    (clean_mcp_client [badCleanupClient, okClient]).1 = 1 ∧
      (clean_mcp_client [badCleanupClient, okClient]).1 ≠ 2 ∧
      (clean_mcp_client [badCleanupClient, okClient]).2 = true :=
  ⟨rfl, by decide, rfl⟩

/-- C4 amended: `clean_mcp_client` attempts cleanups in order and stops at
the first failing one — the clients after the first failure are not
attempted and the exception propagates; only when every cleanup succeeds
is every client torn down. -/
theorem clean_mcp_client_stops_at_first_failure :
    (∀ (pre post : List MCPClient) (bad : MCPClient),
        (∀ c ∈ pre, c.cleanupFails = false) → bad.cleanupFails = true →
          clean_mcp_client (pre ++ bad :: post) = (pre.length + 1, true)) ∧
    (∀ cs : List MCPClient, (∀ c ∈ cs, c.cleanupFails = false) →
        clean_mcp_client cs = (cs.length, false)) := by
  constructor
  · intro pre post bad hpre hbad
    induction pre with
    | nil => simp [clean_mcp_client, hbad]
    | cons c cs ih =>
      have hc : c.cleanupFails = false := hpre c (mem_cons_self c cs)
      have := ih (fun c' hc' => hpre c' (mem_cons_of_mem c hc'))
      simp [clean_mcp_client, hc, this]
  · intro cs hcs
    induction cs with
    | nil => rfl
    | cons c cs ih =>
      have hc : c.cleanupFails = false := hcs c (mem_cons_self c cs)
      have := ih (fun c' hc' => hcs c' (mem_cons_of_mem c hc'))
      simp [clean_mcp_client, hc, this]

/-- C4 witness: a failing cleanup between two healthy clients stops the
teardown after two attempts. -/
theorem clean_mcp_client_stops_at_first_failure_witness :
    clean_mcp_client ([okClient] ++ badCleanupClient :: [okClient]) = (2, true) :=
  clean_mcp_client_stops_at_first_failure.1 [okClient] [okClient] badCleanupClient
    (fun c hc => by rcases List.mem_singleton.mp hc with rfl; rfl) rfl

-- =========================================================================
-- C8 : init_mcp_client connects in order and aborts on failure
-- =========================================================================

/-- C8: `init_mcp_client` connects one client per registered path in
registration order (when every connection succeeds the client list is the
image of the path list), and a failure connecting any one server aborts
the initialization: the clients appended are exactly those of the paths
before the failing one, and the exception propagates. -/
theorem init_mcp_client_order_and_abort (connect : String → Except AgentError MCPClient)
    (f : String → MCPClient) :
    (∀ paths : List String, (∀ p ∈ paths, connect p = .ok (f p)) →
        init_mcp_client connect paths = (paths.map f, none)) ∧
    (∀ (pre post : List String) (bad : String) (e : AgentError),
        (∀ p ∈ pre, connect p = .ok (f p)) → connect bad = .error e →
          init_mcp_client connect (pre ++ bad :: post) = (pre.map f, some e)) := by
  constructor
  · intro paths hok
    induction paths with
    | nil => rfl
    | cons p ps ih =>
      have hp : connect p = .ok (f p) := hok p (mem_cons_self p ps)
      have := ih (fun p' hp' => hok p' (mem_cons_of_mem p hp'))
      simp [init_mcp_client, hp, this]
  · intro pre post bad e hpre hbad
    induction pre with
    | nil => simp [init_mcp_client, hbad]
    | cons p ps ih =>
      have hp : connect p = .ok (f p) := hpre p (mem_cons_self p ps)
      have := ih (fun p' hp' => hpre p' (mem_cons_of_mem p hp'))
      simp [init_mcp_client, hp, this]

/-- C8 witness: with a connect oracle failing on path "bad", the paths
after it are not connected and the error propagates. -/
theorem init_mcp_client_order_and_abort_witness :
    init_mcp_client
        (fun p => if p = "bad" then .error .indexError else .ok okClient)
        (["a"] ++ "bad" :: ["c"]) = (["a"].map (fun _ => okClient), some .indexError) :=
  (init_mcp_client_order_and_abort
      (fun p => if p = "bad" then .error .indexError else .ok okClient)
      (fun _ => okClient)).2 ["a"] ["c"] "bad" .indexError
    (fun p hp => by rcases List.mem_singleton.mp hp with rfl; rfl) rfl

-- =========================================================================
-- C7 : catalog aggregation is last-registered-wins
-- =========================================================================

theorem registerTools_not_mem (idx : Nat) (ts : List MCPTool) (m : String → Option Nat)
    (name : String) (h : name ∉ ts.map (·.name)) :
    registerTools idx ts m name = m name := by
  induction ts generalizing m with
  | nil => rfl
  | cons t ts ih =>
    have h1 : name ∉ ts.map (·.name) := fun hx => h (by simp [hx])
    have h2 : name ≠ t.name := fun hx => h (by simp [hx])
    simp [registerTools, ih _ h1, updateMap, h2]

theorem registerTools_mem (idx : Nat) (ts : List MCPTool) (m : String → Option Nat)
    (name : String) (h : name ∈ ts.map (·.name)) :
    registerTools idx ts m name = some idx := by
  induction ts generalizing m with
  | nil => simp at h
  | cons t ts ih =>
    by_cases hmem : name ∈ ts.map (·.name)
    · exact ih _ hmem
    · have hname : name = t.name := by
        rcases mem_map.mp h with ⟨u, hu, hun⟩
        rcases mem_cons.mp hu with rfl | hu'
        · exact hun.symm
        · exact absurd (mem_map.mpr ⟨u, hu', hun⟩) hmem
      have hnot : registerTools idx ts (updateMap m t.name idx) name =
          (updateMap m t.name idx) name := registerTools_not_mem idx ts _ name hmem
      have hupd : (updateMap m t.name idx) name = some idx := by simp [updateMap, hname]
      exact hnot.trans hupd

theorem get_func_scheme_map_not_mem (k : Nat) (clients : List MCPClient)
    (m : String → Option Nat) (name : String)
    (h : ∀ c ∈ clients, name ∉ c.tools.map (·.name)) :
    get_func_scheme_map k clients m name = m name := by
  induction clients generalizing k m with
  | nil => rfl
  | cons c cs ih =>
    have h1 : name ∉ c.tools.map (·.name) := h c (mem_cons_self c cs)
    have := ih (k + 1) (registerTools k c.tools m) (fun c' hc' => h c' (mem_cons_of_mem c hc'))
    exact this.trans (registerTools_not_mem k c.tools m name h1)

/-- C7: after catalog aggregation over the connected clients (in
connection order), every tool name exported by some client routes to the
last client exporting it: if client `i` exports `name` and no later
client does, `tool_map` maps `name` to `i` — in particular a name
duplicated across two servers resolves to the later-initialized one. -/
theorem get_func_scheme_last_wins (clients : List MCPClient)
    (m0 : String → Option Nat) (name : String) (i : Nat) (c : MCPClient)
    (hget : clients[i]? = some c) (hmem : name ∈ c.tools.map (·.name))
    (hlast : ∀ c' ∈ clients.drop (i + 1), name ∉ c'.tools.map (·.name)) :
    get_func_scheme_map 0 clients m0 name = some i := by
  suffices h : ∀ (k : Nat) (cs : List MCPClient) (m : String → Option Nat) (j : Nat)
      (cj : MCPClient), cs[j]? = some cj → name ∈ cj.tools.map (·.name) →
      (∀ c' ∈ cs.drop (j + 1), name ∉ c'.tools.map (·.name)) →
      get_func_scheme_map k cs m name = some (k + j) by
    simpa using h 0 clients m0 i c hget hmem hlast
  intro k cs
  induction cs generalizing k with
  | nil => intro m j cj hj; simp at hj
  | cons c0 cs ih =>
    intro m j cj hj hmemj hlastj
    cases j with
    | zero =>
      simp only [getElem?_cons_zero, Option.some.injEq] at hj
      subst hj
      have hrest : ∀ c' ∈ cs, name ∉ c'.tools.map (·.name) := by
        simpa using hlastj
      have := get_func_scheme_map_not_mem (k + 1) cs (registerTools k c0.tools m) name hrest
      simp only [get_func_scheme_map]
      rw [this, registerTools_mem k c0.tools m name hmemj]
      simp
    | succ j' =>
      simp only [getElem?_cons_succ] at hj
      have hlast' : ∀ c' ∈ cs.drop (j' + 1), name ∉ c'.tools.map (·.name) := by
        intro c' hc'
        exact hlastj c' (by simpa using hc')
      have := ih (k + 1) (registerTools k c0.tools m) j' cj hj hmemj hlast'
      simp only [get_func_scheme_map]
      rw [this]
      congr 1
      omega

/-- C7 witness: two servers both exporting a tool named "echo"; the
aggregated namespace routes "echo" to the second (index 1). -/
theorem get_func_scheme_last_wins_witness :
    get_func_scheme_map 0
        [{ name := "s1", tools := [{ name := "echo", description := "", inputSchema := "" }],
           callBehavior := fun _ _ => (false, []), cleanupFails := false },
         { name := "s2", tools := [{ name := "echo", description := "", inputSchema := "" }],
           callBehavior := fun _ _ => (false, []), cleanupFails := false }]
        (fun _ => none) "echo" = some 1 :=
  get_func_scheme_last_wins _ (fun _ => none) "echo" 1
    { name := "s2", tools := [{ name := "echo", description := "", inputSchema := "" }],
      callBehavior := fun _ _ => (false, []), cleanupFails := false }
    rfl (by simp) (by simp)

-- =========================================================================
-- C9 : tool error flags are forwarded as data, not raised
-- =========================================================================

/-- A client identical to `c` except that every tool call reports the
error flag computed by `flag` (with the same text contents). -/
def withFlags (flag : String → List (String × String) → Bool) (c : MCPClient) : MCPClient :=
  { c with callBehavior := fun n p => (flag n p, (c.callBehavior n p).2) }

/-- A manager whose servers report error flags according to `flag` but
return the same text contents. -/
def managerWithFlags (flag : String → List (String × String) → Bool)
    (m : MCPClientManager) : MCPClientManager :=
  { m with clients := m.clients.map (withFlags flag) }

theorem call_tool_managerWithFlags (flag : String → List (String × String) → Bool)
    (m : MCPClientManager) (n : String) (p : List (String × String)) :
    (managerWithFlags flag m).call_tool n p =
      match m.call_tool n p with
      | .ok res => .ok (flag n p, res.2)
      | .error e => .error e := by
  unfold MCPClientManager.call_tool managerWithFlags
  cases htm : m.tool_map n with
  | none => rfl
  | some k =>
    have hk : ¬ ((k : Int) < 0) := not_lt.mpr (Int.natCast_nonneg k)
    simp only [getElem?_map]
    cases hcl : m.clients[(Int.ofNat k).toNat]? with
    | none => simp [hcl, hk]
    | some cl => simp [hcl, withFlags, hk]

theorem get_result_tool_go_managerWithFlags (flag : String → List (String × String) → Bool)
    (m : MCPClientManager) (props : List (String × List (String × String))) :
    get_result_tool_go (managerWithFlags flag m) props = get_result_tool_go m props := by
  induction props with
  | nil => rfl
  | cons pr rest ih =>
    obtain ⟨n, p⟩ := pr
    simp only [get_result_tool_go, call_tool_managerWithFlags, ih]
    cases m.call_tool n p <;> rfl

/-- C9: whatever error flags the called tools report, `chat` behaves
exactly as when every call succeeds: it does not raise, and the texts are
serialized into the tool-result payload unchanged — the flag is forwarded
as data to the second generation phase, never propagated. -/
theorem chat_forwards_tool_error_flag (flag : String → List (String × String) → Bool)
    (llm : String → String) (render : List Turn → Bool → Nat → String)
    (st : AgentState) (q : String) :
    (chat llm render { st with mcp_manager := managerWithFlags flag st.mcp_manager } q).1 =
        (chat llm render { st with mcp_manager := managerWithFlags (fun _ _ => false) st.mcp_manager } q).1 ∧
      (chat llm render { st with mcp_manager := managerWithFlags flag st.mcp_manager } q).2.history =
        (chat llm render { st with mcp_manager := managerWithFlags (fun _ _ => false) st.mcp_manager } q).2.history := by
  unfold chat get_result_tool
  simp only [get_result_tool_go_managerWithFlags]
  split
  · cases get_result_tool_go st.mcp_manager
      (get_func_props (pyNormalize (llm (render
        (st.history ++ [Turn.user q (TOOL_CALL_PROMPT st.func_scheme_prompt)]) true 50)))) <;>
      exact ⟨rfl, rfl⟩
  · exact ⟨rfl, rfl⟩

-- =========================================================================
-- C1 : response ordering of chat
-- =========================================================================

/-- C1: whenever `chat` returns a response sequence (no exception
propagated), that sequence is exactly tool-calling, tool-result, text when
the normalized first-phase generation matches the call-list pattern, and
exactly one text entry otherwise; no other shape occurs. -/
theorem chat_response_ordering (llm : String → String)
    (render : List Turn → Bool → Nat → String) (st : AgentState) (q : String)
    (rs : List AgentResponse) (h : (chat llm render st q).1 = .ok rs) :
    rs.map (·.type) =
      if is_tool_required (phase1Response llm render st q) then
        [RKind.toolCalling, RKind.toolResult, RKind.text]
      else [RKind.text] := by
  simp only [phase1Response]
  simp only [chat] at h
  split at h
  · rename_i hm
    rw [if_pos hm]
    split at h
    · simp at h
    · rename_i results hres
      simp only [Except.ok.injEq] at h
      subst h
      rfl
  · rename_i hm
    rw [if_neg hm]
    simp only [Except.ok.injEq] at h
    subst h
    rfl

/-- C1 witness: a first-phase generation "hello" (no pattern match) gives
exactly one text response. -/
theorem chat_response_ordering_witness :
    ((chat (fun _ => "hello") (fun _ _ _ => "") stEmpty "q").1 =
        .ok [{ type := RKind.text, data := "hello" }]) ∧
      [({ type := RKind.text, data := "hello" } : AgentResponse)].map (·.type) =
        (if is_tool_required (phase1Response (fun _ => "hello") (fun _ _ _ => "") stEmpty "q") then
          [RKind.toolCalling, RKind.toolResult, RKind.text]
        else [RKind.text]) :=
  ⟨rfl, chat_response_ordering (fun _ => "hello") (fun _ _ _ => "") stEmpty "q" _ rfl⟩

-- =========================================================================
-- C2 : history growth of chat
-- =========================================================================

/-- C2: every completed `chat` interaction appends exactly two turns
(user, assistant) when no tools fire and exactly four turns
(user, assistant tool call, tool result, final assistant answer) when
they do; no completed interaction appends any other number of turns. -/
theorem chat_history_turns (llm : String → String)
    (render : List Turn → Bool → Nat → String) (st : AgentState) (q : String)
    (rs : List AgentResponse) (h : (chat llm render st q).1 = .ok rs) :
    (is_tool_required (phase1Response llm render st q) = false →
      (chat llm render st q).2.history = st.history ++
        [Turn.user q (TOOL_CALL_PROMPT st.func_scheme_prompt),
         Turn.assistant (phase1Response llm render st q)]) ∧
    (is_tool_required (phase1Response llm render st q) = true →
      ∃ res fin, (chat llm render st q).2.history = st.history ++
        [Turn.user q (TOOL_CALL_PROMPT st.func_scheme_prompt),
         Turn.assistant (phase1Response llm render st q),
         Turn.toolResult res, Turn.assistant fin]) := by
  simp only [phase1Response]
  simp only [chat] at h ⊢
  split at h
  · rename_i hm
    constructor
    · intro hfalse
      rw [hm] at hfalse
      cases hfalse
    · intro _
      split at h
      · simp at h
      · rename_i results hres
        rw [if_pos hm]
        refine ⟨jsonDumpResults results,
          llm (render (st.history ++
            [Turn.user q (TOOL_CALL_PROMPT st.func_scheme_prompt),
             Turn.assistant (pyNormalize (llm (render (st.history ++
               [Turn.user q (TOOL_CALL_PROMPT st.func_scheme_prompt)]) true 50))),
             Turn.toolResult (jsonDumpResults results)]) false 3), ?_⟩
        simp
  · rename_i hm
    constructor
    · intro _
      rw [if_neg hm]
      simp
    · intro htrue
      exact absurd htrue (by simpa using hm)

/-- C2 witness: the no-tool branch appends exactly the user turn and the
assistant turn. -/
theorem chat_history_turns_witness :
    (chat (fun _ => "hi") (fun _ _ _ => "") stEmpty "q").2.history = stEmpty.history ++
        [Turn.user "q" (TOOL_CALL_PROMPT stEmpty.func_scheme_prompt),
         Turn.assistant (phase1Response (fun _ => "hi") (fun _ _ _ => "") stEmpty "q")] :=
  (chat_history_turns (fun _ => "hi") (fun _ _ _ => "") stEmpty "q"
      [{ type := RKind.text, data := "hi" }] rfl).1 rfl

-- =========================================================================
-- C10 : unknown-tool failure aborts chat with partially-committed history
-- =========================================================================

/-- C10: when the tool branch is taken and tool execution raises the
unknown-tool `MCPException`, `chat` propagates the error and returns no
response sequence (not even the already-built tool-calling entry), while
the history already holds the user turn and the assistant tool-calling
turn but neither a tool-result turn nor a final text turn. -/
theorem chat_unknown_tool_aborts (llm : String → String)
    (render : List Turn → Bool → Nat → String) (st : AgentState) (q : String)
    (msg : String)
    (hm : is_tool_required (phase1Response llm render st q) = true)
    (he : get_result_tool st.mcp_manager (phase1Response llm render st q) =
      .error (.mcpException msg)) :
    (chat llm render st q).1 = .error (.mcpException msg) ∧
      (chat llm render st q).2.history =
        st.history ++ [Turn.user q (TOOL_CALL_PROMPT st.func_scheme_prompt),
          Turn.assistant (phase1Response llm render st q)] := by
  simp only [phase1Response] at hm he ⊢
  simp [chat, hm, he]

/-- C10 witness: first-phase generation `[foo()]` against a registry with
no connected servers; the unknown-tool error propagates and the history
holds exactly the user and tool-calling turns. -/
theorem chat_unknown_tool_aborts_witness :
    ((chat (fun _ => "[foo()]") (fun _ _ _ => "") stEmpty "q").1 =
        .error (.mcpException ("Unknown tool name \x27" ++ "foo" ++ "\x27"))) ∧
      (chat (fun _ => "[foo()]") (fun _ _ _ => "") stEmpty "q").2.history =
        stEmpty.history ++ [Turn.user "q" (TOOL_CALL_PROMPT stEmpty.func_scheme_prompt),
          Turn.assistant (phase1Response (fun _ => "[foo()]") (fun _ _ _ => "") stEmpty "q")] :=
  chat_unknown_tool_aborts (fun _ => "[foo()]") (fun _ _ _ => "") stEmpty "q"
    ("Unknown tool name \x27" ++ "foo" ++ "\x27") (by decide) (by rfl)

-- =========================================================================
-- C6 : the classifier is anchored at the start only, not a whole-string
-- match
-- =========================================================================

/-- C6 counterexample: `"[foo()]!"` does not match the bracketed call-list
shape as a whole (its tokenization is not in the pattern's language), yet
`_is_tool_required` is true on it, because Python's `re.match` anchors
only at the start of the string. -/
theorem is_tool_required_not_whole_string :
    is_tool_required "[foo()]!" = true ∧
      encodeStr "[foo()]!" ∉ toolPatternRE.matches' :=
  ⟨by decide, fun h => by
    rw [← rmatch_iff_matches'] at h
    exact absurd h (by decide)⟩

/-- C6 amended: `_is_tool_required` is a structural match of the call-list
grammar anchored at the start of the string (Python `re.match`): it is
true exactly when some prefix of the text matches the grammar. In
particular it is true on `"[foo()]"`, false on `"The answer is 42."` and
false on the unbalanced `"[foo(, ]"`; but text matching the shape only as
a proper prefix is also classified as a tool call. -/
theorem is_tool_required_anchored :
    (∀ s : String, is_tool_required s = true ↔
        ∃ p q : List Char, s.toList = p ++ q ∧ (p.map encode) ∈ toolPatternRE.matches') ∧
    is_tool_required "[foo()]" = true ∧
    is_tool_required "The answer is 42." = false ∧
    is_tool_required "[foo(, ]" = false := by
  refine ⟨?_, by decide, by decide, by decide⟩
  intro s
  rw [is_tool_required, encodeStr, mPre_iff]
  constructor
  · rintro ⟨p, q, hpq, hp⟩
    obtain ⟨p', q', hsplit, hp', hq'⟩ := map_eq_append_iff.mp hpq
    exact ⟨p', q', hsplit, hp' ▸ hp⟩
  · rintro ⟨p, q, hpq, hp⟩
    exact ⟨p.map encode, q.map encode, by rw [hpq, map_append], hp⟩

-- =========================================================================
-- C5 : a grammar match may still decompose to zero calls
-- =========================================================================

/-- C5 counterexample: `"[foo(a=\"x,y\")]"` matches the call-list pattern
(so `_is_tool_required` is true), but `get_func_props` yields no call at
all: the comma inside the quoted parameter value splits the text into two
fragments, neither of which `func_pattern` matches. -/
theorem tool_match_with_zero_calls :
    is_tool_required "[foo(a=\"x,y\")]" = true ∧
      get_func_props "[foo(a=\"x,y\")]" = [] :=
  ⟨by decide, by decide⟩

-- =========================================================================
-- Helper lemmas for the amended C5 theorem
-- =========================================================================

theorem isIdentChar_not_space {c : Char} (h : isIdentChar c = true) :
    pyIsSpace c = false := by
  by_contra hs
  rw [Bool.not_eq_false] at hs
  unfold pyIsSpace at hs
  simp only [Bool.or_eq_true, decide_eq_true_eq] at hs
  rcases hs with ((((rfl | rfl) | rfl) | rfl) | rfl) | rfl <;> exact absurd h (by decide)

theorem encode_eq_ident {c : Char} (h : encode c = .ident) :
    isIdentChar c = true ∧ isBracketChar c = false ∧ pyIsSpace c = false ∧ c ≠ ',' := by
  unfold encode at h
  split_ifs at h with h1 h2 h3 h4 h5 h6 h7 h8
  · refine ⟨h8, ?_, isIdentChar_not_space h8, h7⟩
    simp [isBracketChar, h1, h2]

theorem mem_comp_split {r1 r2 : RE} {l : List Char}
    (h : l.map encode ∈ (r1 * r2).matches') :
    ∃ l1 l2, l = l1 ++ l2 ∧ l1.map encode ∈ r1.matches' ∧ l2.map encode ∈ r2.matches' := by
  rw [matches'_mul] at h
  obtain ⟨a, ha, b, hb, hab⟩ := Language.mem_mul.mp h
  obtain ⟨l1, l2, hl, h1, h2⟩ := map_eq_append_iff.mp hab.symm
  exact ⟨l1, l2, hl, h1 ▸ ha, h2 ▸ hb⟩

theorem mem_char_split {t : Tok} {l : List Char}
    (h : l.map encode ∈ (chr t).matches') : ∃ c, l = [c] ∧ encode c = t := by
  rw [chr, matches'_char] at h
  have hl : l.map encode = [t] := h
  cases l with
  | nil => simp at hl
  | cons c cs =>
    cases cs with
    | nil => exact ⟨c, rfl, by simpa using hl⟩
    | cons d ds => simp at hl

theorem identPlus_split {l : List Char} (h : l.map encode ∈ identPlus.matches') :
    ∃ c0 cs, l = c0 :: cs ∧ encode c0 = .ident := by
  unfold identPlus rplus at h
  obtain ⟨l1, l2, hl, h1, h2⟩ := mem_comp_split h
  obtain ⟨c, hc, hct⟩ := mem_char_split h1
  exact ⟨c, l2, by rw [hl, hc]; rfl, hct⟩

theorem dropRightWhile_append_cons (p : Char → Bool) (A B : List Char) (x : Char)
    (hx : p x = false) :
    dropRightWhile p (A ++ x :: B) = A ++ x :: dropRightWhile p B := by
  unfold dropRightWhile
  rw [reverse_append, reverse_cons, append_assoc, singleton_append, dropWhile_append]
  split
  · rename_i hemp
    rw [dropWhile_cons, if_neg (by simp [hx])]
    rw [reverse_cons, reverse_reverse]
    have : B.reverse.dropWhile p = [] := by simpa [List.isEmpty_iff] using hemp
    rw [this]
    simp
  · rw [reverse_append, reverse_cons, reverse_reverse]
    simp

theorem mem_of_mem_dropRightWhile {p : Char → Bool} {l : List Char} {c : Char}
    (h : c ∈ dropRightWhile p l) : c ∈ l := by
  unfold dropRightWhile at h
  rw [mem_reverse] at h
  have := (dropWhile_sublist (p := p) (l := l.reverse)).mem h
  rwa [mem_reverse] at this

theorem mem_of_mem_stripBoth {p : Char → Bool} {l : List Char} {c : Char}
    (h : c ∈ stripBoth p l) : c ∈ l :=
  (dropWhile_sublist (p := p) (l := l)).mem (mem_of_mem_dropRightWhile h)

theorem encode_eq_lbrack {c : Char} (h : encode c = .lbrack) : c = '[' := by
  unfold encode at h
  split_ifs at h
  simp_all

theorem encode_eq_lpar {c : Char} (h : encode c = .lpar) : c = '(' := by
  unfold encode at h
  split_ifs at h
  simp_all

theorem encode_eq_rpar {c : Char} (h : encode c = .rpar) : c = ')' := by
  unfold encode at h
  split_ifs at h
  simp_all

/-- C5 amended: the decomposition can drop calls only when a comma is
involved (the comma-splitting of `get_func_props` cuts through parameter
lists, as the counterexample shows); for every comma-free text that
`tool_pattern` matches, `get_func_props` yields at least one parsed call. -/
theorem get_func_props_nonempty_of_match (s : String)
    (hm : is_tool_required s = true) (hc : ∀ c ∈ s.toList, c ≠ ',') :
    get_func_props s ≠ [] := by
  rw [is_tool_required, encodeStr, mPre_iff] at hm
  obtain ⟨p, q, hpq, hp⟩ := hm
  obtain ⟨cp, cq, hs0, hcp, hcq⟩ := map_eq_append_iff.mp hpq
  rw [← hcp] at hp
  rw [toolPatternRE] at hp
  obtain ⟨lb, r1, hcp1, hlb, hr1⟩ := mem_comp_split hp
  obtain ⟨cLb, hlbeq, hlbt⟩ := mem_char_split hlb
  have hlbc : cLb = '[' := encode_eq_lbrack hlbt
  obtain ⟨calls, rb, hr1eq, hcalls, hrb⟩ := mem_comp_split hr1
  unfold rplus at hcalls
  obtain ⟨call1, crest, hcallseq, hcall1, hcrest⟩ := mem_comp_split hcalls
  rw [callRE] at hcall1
  obtain ⟨cn, r2, hc1eq, hcn, hr2⟩ := mem_comp_split hcall1
  obtain ⟨lp, r3, hr2eq, hlp, hr3⟩ := mem_comp_split hr2
  obtain ⟨cLp, hlpeq, hlpt⟩ := mem_char_split hlp
  have hlpc : cLp = '(' := encode_eq_lpar hlpt
  obtain ⟨ci, r4, hr3eq, hci, hr4⟩ := mem_comp_split hr3
  obtain ⟨rp, r5, hr4eq, hrp, hr5⟩ := mem_comp_split hr4
  obtain ⟨cRp, hrpeq, hrpt⟩ := mem_char_split hrp
  have hrpc : cRp = ')' := encode_eq_rpar hrpt
  obtain ⟨c0, cn', hcneq, hc0t⟩ := identPlus_split hcn
  obtain ⟨hid0, hbr0, hws0, hcm0⟩ := encode_eq_ident hc0t
  rw [hcneq] at hcn
  -- full shape of the string
  have hshape : s.toList =
      '[' :: ((c0 :: cn') ++ '(' :: (ci ++ ')' :: (r5 ++ (crest ++ (rb ++ cq))))) := by
    rw [hs0, hcp1, hr1eq, hcallseq, hc1eq, hr2eq, hr3eq, hr4eq, hcneq,
      hlbeq, hlpeq, hrpeq, hlbc, hlpc, hrpc]
    simp [append_assoc]
  -- the bracket strip keeps the first call intact
  have hdrop : s.toList.dropWhile isBracketChar =
      (c0 :: cn') ++ '(' :: (ci ++ ')' :: (r5 ++ (crest ++ (rb ++ cq)))) := by
    rw [hshape, dropWhile_cons, if_pos (by decide), cons_append, dropWhile_cons,
      if_neg (by simp [hbr0]), ← cons_append]
  have hstrip1 : stripBoth isBracketChar s.toList =
      (c0 :: cn') ++ '(' :: (ci ++ ')' ::
        dropRightWhile isBracketChar (r5 ++ (crest ++ (rb ++ cq)))) := by
    rw [stripBoth, hdrop]
    have hassoc : (c0 :: cn') ++ '(' :: (ci ++ ')' :: (r5 ++ (crest ++ (rb ++ cq)))) =
        ((c0 :: cn') ++ '(' :: ci) ++ ')' :: (r5 ++ (crest ++ (rb ++ cq))) := by
      simp [append_assoc]
    rw [hassoc, dropRightWhile_append_cons _ _ _ _ (by decide)]
    simp [append_assoc]
  -- comma-freeness: the whole stripped text is the single comma segment
  have hsingle : (stripBoth isBracketChar s.toList).splitOnP (fun c => c = ',') =
      [stripBoth isBracketChar s.toList] := by
    apply splitOnP_eq_single
    intro x hx
    simpa using hc x (mem_of_mem_stripBoth hx)
  -- the whitespace strip of the segment also keeps the first call intact
  have hstrip2 : stripBoth pyIsSpace (stripBoth isBracketChar s.toList) =
      (c0 :: cn') ++ '(' :: (ci ++ ')' ::
        dropRightWhile pyIsSpace
          (dropRightWhile isBracketChar (r5 ++ (crest ++ (rb ++ cq))))) := by
    rw [hstrip1, stripBoth, cons_append, dropWhile_cons, if_neg (by simp [hws0]),
      ← cons_append]
    have hassoc : (c0 :: cn') ++ '(' :: (ci ++ ')' ::
        dropRightWhile isBracketChar (r5 ++ (crest ++ (rb ++ cq)))) =
        ((c0 :: cn') ++ '(' :: ci) ++ ')' ::
          dropRightWhile isBracketChar (r5 ++ (crest ++ (rb ++ cq))) := by
      simp [append_assoc]
    rw [hassoc, dropRightWhile_append_cons _ _ _ _ (by decide)]
    simp [append_assoc]
  -- the first call is a substring matching func_pattern
  have hmid : ((c0 :: cn') ++ '(' :: (ci ++ [')'])).map encode ∈ funcPatternRE.matches' := by
    have henc : ((c0 :: cn') ++ '(' :: (ci ++ [')'])).map encode =
        (c0 :: cn').map encode ++ ([Tok.lpar] ++ (ci.map encode ++ [Tok.rpar])) := by
      simp only [map_append, map_cons, map_nil, cons_append, nil_append,
        show encode '(' = Tok.lpar from rfl, show encode ')' = Tok.rpar from rfl]
    rw [henc, funcPatternRE, matches'_mul]
    refine Language.append_mem_mul hcn ?_
    rw [matches'_mul]
    refine Language.append_mem_mul (by rw [chr, matches'_char]; rfl) ?_
    rw [matches'_mul]
    exact Language.append_mem_mul hci (by rw [chr, matches'_char]; rfl)
  have hsearch : mSearch funcPatternRE
      (stripBoth pyIsSpace (stripBoth isBracketChar s.toList)) = true := by
    rw [mSearch_iff]
    refine ⟨[], (c0 :: cn') ++ '(' :: (ci ++ [')']),
      dropRightWhile pyIsSpace
        (dropRightWhile isBracketChar (r5 ++ (crest ++ (rb ++ cq)))), ?_, hmid⟩
    rw [hstrip2]
    simp [append_assoc]
  rw [mSearch] at hsearch
  obtain ⟨suf, hsuf⟩ := Option.isSome_iff_exists.mp hsearch
  simp only [get_func_props, hsingle, filterMap_cons, filterMap_nil, hsuf]
  simp

/-- C5 amended witness: `"[foo()]"` is comma-free, matches the pattern and
decomposes to at least one call. -/
theorem get_func_props_nonempty_of_match_witness :
    get_func_props "[foo()]" ≠ [] :=
  get_func_props_nonempty_of_match "[foo()]" (by decide) (by decide)
